import Mathlib

/-!
Shallow embedding of the goenum library (Go): enum values, the enum
registry (`EnumSet`), the dynamic loader (`DynamicEnumLoader`), the JSON
full-record round trip of `EnumBase`, and the composite (bit-flag) enums.

Go `interface{}` values stored in enums are modelled by the closed variant
type `GoValue`; `float64` payloads are modelled by rationals (the concrete
floats exercised here, such as 1.0 and 1.5, are exactly representable, and
Go's `int(f)` conversion truncates toward zero, which is exact on them).
Go maps are modelled as association lists with first-match lookup; Go map
iteration order is unspecified, so list order stands in for one admissible
order.  A Go `panic` is modelled as an explicit outcome constructor.
-/

namespace GoEnum

/-- Closed model of the Go `interface{}` values an enum may hold:
nil, bool, int, uint64, float64 (as an exactly-represented rational),
and string.  Equality of `GoValue` models Go interface equality, under
which `int(1)`, `uint64(1)` and `float64(1)` are pairwise distinct. -/
inductive GoValue where
  | vNull
  | vBool (b : Bool)
  | vInt (n : Int)
  | vUInt64 (n : Nat)
  | vFloat (q : ℚ)
  | vString (s : String)
deriving DecidableEq

/-- Runtime types of the basic `GoValue`s, for `reflect.TypeOf` checks. -/
inductive GoType where
  | tBool
  | tInt
  | tUInt64
  | tFloat64
  | tString
deriving DecidableEq

/-- Models `reflect.TypeOf` on the basic values; `nil` has no type. -/
def typeOf : GoValue → Option GoType
  | .vNull => none
  | .vBool _ => some .tBool
  | .vInt _ => some .tInt
  | .vUInt64 _ => some .tUInt64
  | .vFloat _ => some .tFloat64
  | .vString _ => some .tString

/-- Go's `int(f)` conversion on a `float64`: truncation toward zero,
computed as the t-division of the numerator by the denominator.  The
lemmas `truncQ_eq_floor` and `truncQ_eq_ceil` below verify that this is
`⌊q⌋` on nonnegative input and `⌈q⌉` on negative input. -/
def truncQ (q : ℚ) : Int := Int.tdiv q.num (q.den : Int)

/-- The number of low-order bits a natural must drop to fit the 53-bit
significand of an IEEE-754 `float64`: zero when `m < 2^53`, one more
than for `m / 2` otherwise.  Structural recursion on explicit fuel; 128
bits of fuel cover every value a Go `int` or `uint64` can hold. -/
def sigShift : Nat → Nat → Nat
  | 0, _ => 0
  | fuel + 1, m => if m < 2 ^ 53 then 0 else sigShift fuel (m / 2) + 1

/-- Rounding of a natural to the nearest `float64` (round-to-nearest,
ties-to-even on the 53-bit significand): exact below `2^53`, and far
below the `float64` overflow range for every value a Go `int` or
`uint64` can hold. -/
def roundF64Nat (m : Nat) : Nat :=
  if m < 2 ^ 53 then m
  else
    let s := sigShift 128 m
    let q := m >>> s
    let r := m - (q <<< s)
    let half := 2 ^ s / 2
    if half < r ∨ (r = half ∧ q % 2 = 1) then (q + 1) <<< s else q <<< s

/-- `float64` rounding of an integer, by the sign symmetry of IEEE-754
round-to-nearest-even. -/
def roundF64Int (n : Int) : Int :=
  if n < 0 then -(roundF64Nat n.natAbs : Int)
  else (roundF64Nat n.natAbs : Int)

/-- The rational value of the `float64` nearest to the integer `n`. -/
def float64OfInt (n : Int) : ℚ := (roundF64Int n : ℚ)

/-- ASCII upper-casing of one character. -/
def charUp (c : Char) : Char :=
  if 'a' ≤ c ∧ c ≤ 'z' then Char.ofNat (c.toNat - 32) else c

/-- ASCII lower-casing of one character. -/
def charLow (c : Char) : Char :=
  if 'A' ≤ c ∧ c ≤ 'Z' then Char.ofNat (c.toNat + 32) else c

/-- Models `strings.ToUpper` (agrees with it on ASCII strings, which is
what every name in the facts proved here is). -/
def goToUpper (s : String) : String := ⟨s.data.map charUp⟩

/-- Models `strings.ToLower` on ASCII strings. -/
def goToLower (s : String) : String := ⟨s.data.map charLow⟩

/-- Models `strings.EqualFold` on the ASCII strings used here:
case-insensitive equality via lower-casing both sides. -/
def eqFold (a b : String) : Bool := goToLower a == goToLower b

/-- The `EnumBase` struct: value, name, description, aliases.
The `jsonConfig` field is omitted: the serialization facts proved here fix
the format explicitly and `jsonConfig` never feeds into registry keys. -/
structure EnumBase where
  value : GoValue
  name : String
  description : String
  aliases : List String
deriving DecidableEq

/-- `NewEnumBase`: constructs an `EnumBase` from its four inputs. -/
def NewEnumBase (value : GoValue) (name description : String)
    (aliases : List String) : EnumBase :=
  { value := value, name := name, description := description,
    aliases := aliases }

/-- Abbreviation for the built-in string type, needed because the model
keeps the Go method name `EnumBase.String`, which shadows `String` inside
its own signature. -/
abbrev Str : Type := String

/-- `EnumBase.String()` on a non-nil receiver: returns the name. -/
def EnumBase.String (e : EnumBase) : Str := e.name

/-- `EnumBase.Value()` on a non-nil receiver: returns the stored value. -/
def EnumBase.Value (e : EnumBase) : GoValue := e.value

/-- `EnumBase.HasAlias`: true iff some stored alias equals the candidate
under `strings.EqualFold`. -/
def EnumBase.HasAlias (e : EnumBase) (candidate : Str) : Bool :=
  e.aliases.any (fun x => eqFold x candidate)

/-- First-match association-list lookup: the read operation of a Go map
whose bindings are kept as a list (keys are unique in every set reachable
through `Register`, so first-match agrees with map lookup). -/
def assocFind {κ : Type} [DecidableEq κ] :
    List (κ × EnumBase) → κ → Option EnumBase
  | [], _ => none
  | (k, e) :: rest, n => if k = n then some e else assocFind rest n

/-- The `EnumSet` registry: the `values` (by-name) and `byValue` indices,
each a Go map modelled as an association list. -/
structure EnumSet where
  values : List (String × EnumBase)
  byValue : List (GoValue × EnumBase)
deriving DecidableEq

/-- `NewEnumSet`: a fresh registry with two empty indices. -/
def NewEnumSet : EnumSet := { values := [], byValue := [] }

/-- `EnumSet.Register`: checks the name index, then the value index, and
only then inserts into both.  A Go `panic` is modelled as `some msg` in
the second component, paired with the registry exactly as it stood at the
moment of the panic (both checks precede both insertions in the source).
The `%v` value interpolation of the second `Sprintf` is abstracted. -/
def EnumSet.Register (es : EnumSet) (enum : EnumBase) :
    EnumSet × Option String :=
  let name := enum.String
  let value := enum.Value
  if (assocFind es.values name).isSome then
    (es, some ("duplicate enum name: " ++ name))
  else if (assocFind es.byValue value).isSome then
    (es, some "duplicate enum value")
  else
    ({ values := es.values ++ [(name, enum)],
       byValue := es.byValue ++ [(value, enum)] }, none)

/-- The alias fallback scan of `GetByName`: walks the by-name index and
returns the first enum with a case-insensitively matching alias. -/
def findAliasMatch : List (String × EnumBase) → String → Option EnumBase
  | [], _ => none
  | (_, e) :: rest, n =>
    if e.HasAlias n then some e else findAliasMatch rest n

/-- `EnumSet.GetByName`: exact lookup of the UPPER-CASED query in the
by-name index, falling back to the alias scan.  The Go `(T, bool)` return
is modelled as an `Option`. -/
def EnumSet.GetByName (es : EnumSet) (name : String) : Option EnumBase :=
  match assocFind es.values (goToUpper name) with
  | some e => some e
  | none => findAliasMatch es.values name

/-- `EnumSet.GetByValue`: exact lookup in the by-value index. -/
def EnumSet.GetByValue (es : EnumSet) (value : GoValue) : Option EnumBase :=
  assocFind es.byValue value

/-- `EnumSet.Values`: all registered enums (one admissible map order). -/
def EnumSet.Values (es : EnumSet) : List EnumBase :=
  es.values.map Prod.snd

/-- `EnumSet.Contains`: keys off the exact name only. -/
def EnumSet.Contains (es : EnumSet) (enum : EnumBase) : Bool :=
  (assocFind es.values enum.String).isSome

/-- The three `DuplicateHandling` policies of the dynamic loader. -/
inductive DuplicateHandling where
  | DuplicateError
  | DuplicateSkip
  | DuplicateOverride
deriving DecidableEq

/-- `ValidationOptions` of the dynamic loader; `valueType` models the
optional `reflect.Type` restriction (assignability between the basic
types modelled here is type equality). -/
structure ValidationOptions where
  duplicateHandling : DuplicateHandling
  valueType : Option GoType
  allowEmptyNames : Bool
  allowEmptyValues : Bool
deriving DecidableEq

/-- `DefaultValidationOptions`: error on duplicates, no type restriction,
empty names and nil values disallowed. -/
def DefaultValidationOptions : ValidationOptions :=
  { duplicateHandling := .DuplicateError, valueType := none,
    allowEmptyNames := false, allowEmptyValues := false }

/-- The `EnumDefinition` interchange record consumed by the loader. -/
structure EnumDefinition where
  name : String
  value : GoValue
  description : String
  aliases : List String
deriving DecidableEq

/-- The `DynamicEnumLoader`: a registry being populated plus options. -/
structure DynamicEnumLoader where
  enumSet : EnumSet
  options : ValidationOptions
deriving DecidableEq

/-- `NewDynamicEnumLoader` with explicit (non-nil) options. -/
def NewDynamicEnumLoader (options : ValidationOptions) : DynamicEnumLoader :=
  { enumSet := NewEnumSet, options := options }

/-- `validateEnumDefinition`: empty-name check, then nil-value check,
then the optional value-type check; `some msg` is the returned error. -/
def validateEnumDefinition (l : DynamicEnumLoader) (d : EnumDefinition) :
    Option String :=
  if !l.options.allowEmptyNames && d.name == "" then
    some "enum name cannot be empty"
  else if !l.options.allowEmptyValues && d.value == .vNull then
    some "enum value cannot be nil"
  else
    match l.options.valueType, typeOf d.value with
    | some t, some vt =>
      if vt ≠ t then
        some "enum value type is not assignable to expected type"
      else none
    | _, _ => none

/-- The loop `for _, enum := range set { newSet.Register(enum) }`:
registers a list of enums in turn; a `Register` panic aborts the loop,
surfacing as `some msg`. -/
def registerAllKeep : EnumSet → List EnumBase → EnumSet × Option String
  | es, [] => (es, none)
  | es, e :: rest =>
    match es.Register e with
    | (es1, none) => registerAllKeep es1 rest
    | (es1, some m) => (es1, some m)

/-- The Override rebuild: a fresh registry populated with every registered
enum whose exact name differs from `name` (the removal workaround used by
both `handleDuplicate` and `LoadFromSlice`). -/
def rebuildWithout (es : EnumSet) (name : String) : EnumSet × Option String :=
  registerAllKeep NewEnumSet (es.Values.filter (fun e => e.String != name))

/-- Outcome of a loader step: normal return with the (possibly mutated)
loader, a returned error, or a Go panic escaping the call. -/
inductive DupOutcome where
  | ok (l : DynamicEnumLoader)
  | retErr (l : DynamicEnumLoader) (msg : String)
  | crashed (msg : String)
deriving DecidableEq

/-- `handleDuplicate`: under `DuplicateError` it returns the
duplicate-found error unconditionally (the source never consults the
registry on this path); under `DuplicateSkip` it returns nil; under
`DuplicateOverride` it rebuilds the registry without the named entry when
`GetByName` finds one.  The `, value=%v` part of the error message is
abstracted away. -/
def handleDuplicate (l : DynamicEnumLoader) (name : String)
    (_value : GoValue) : DupOutcome :=
  match l.options.duplicateHandling with
  | .DuplicateError => .retErr l ("duplicate enum found: name=" ++ name)
  | .DuplicateSkip => .ok l
  | .DuplicateOverride =>
    if (l.enumSet.GetByName name).isSome then
      match rebuildWithout l.enumSet name with
      | (newSet, none) => .ok { l with enumSet := newSet }
      | (_, some m) => .crashed m
    else .ok l

/-- Outcome of a whole load call: success, a returned error (with the
loader as mutated so far — no rollback), or an uncaught panic. -/
inductive LoadOutcome where
  | ok (l : DynamicEnumLoader)
  | retErr (l : DynamicEnumLoader) (msg : String)
  | crashed (msg : String)
deriving DecidableEq

/-- `DynamicEnumLoader.LoadFromSlice`: per definition — validate, call
`handleDuplicate` (an error returns under `DuplicateError`, otherwise the
definition is skipped via `continue`), rebuild the registry without the
incoming name when the policy is `DuplicateOverride`, then `Register`
unless the policy is `DuplicateSkip` and the registry already `Contains`
an entry of that exact name. -/
def DynamicEnumLoader.LoadFromSlice :
    DynamicEnumLoader → List EnumDefinition → LoadOutcome
  | l, [] => .ok l
  | l, d :: rest =>
    match validateEnumDefinition l d with
    | some m => .retErr l ("invalid enum definition: " ++ m)
    | none =>
      match handleDuplicate l d.name d.value with
      | .crashed m => .crashed m
      | .retErr l1 m =>
        if l1.options.duplicateHandling = .DuplicateError then .retErr l1 m
        else DynamicEnumLoader.LoadFromSlice l1 rest
      | .ok l1 =>
        match
          (if l1.options.duplicateHandling = .DuplicateOverride then
            rebuildWithout l1.enumSet d.name
          else (l1.enumSet, none)) with
        | (_, some m) => .crashed m
        | (es2, none) =>
          let l2 : DynamicEnumLoader := { l1 with enumSet := es2 }
          let enum : EnumBase :=
            { value := d.value, name := d.name,
              description := d.description, aliases := d.aliases }
          if l2.options.duplicateHandling ≠ .DuplicateSkip
              ∨ ¬ (l2.enumSet.Contains enum) then
            match l2.enumSet.Register enum with
            | (_, some m) => .crashed m
            | (es3, none) =>
              DynamicEnumLoader.LoadFromSlice { l2 with enumSet := es3 } rest
          else DynamicEnumLoader.LoadFromSlice l2 rest
termination_by structural _ defs => defs

/-- `DynamicEnumLoader.LoadFromReader`, modelled after JSON decoding: the
argument list is the decoded `[]EnumDefinition` (Go's `encoding/json`
decodes every interchange number into a `float64`, i.e. a `.vFloat`).
Per definition — validate, `handleDuplicate` exactly as in
`LoadFromSlice`, then convert a `float64` value to `int` by truncation,
and `Register` unconditionally (a `Register` panic escapes the call). -/
def DynamicEnumLoader.LoadFromReader :
    DynamicEnumLoader → List EnumDefinition → LoadOutcome
  | l, [] => .ok l
  | l, d :: rest =>
    match validateEnumDefinition l d with
    | some m => .retErr l ("invalid enum definition: " ++ m)
    | none =>
      match handleDuplicate l d.name d.value with
      | .crashed m => .crashed m
      | .retErr l1 m =>
        if l1.options.duplicateHandling = .DuplicateError then .retErr l1 m
        else DynamicEnumLoader.LoadFromReader l1 rest
      | .ok l1 =>
        let v : GoValue :=
          match d.value with
          | .vFloat f => .vInt (truncQ f)
          | v => v
        let enum : EnumBase :=
          { value := v, name := d.name,
            description := d.description, aliases := d.aliases }
        match l1.enumSet.Register enum with
        | (_, some m) => .crashed m
        | (es2, none) =>
          DynamicEnumLoader.LoadFromReader { l1 with enumSet := es2 } rest
termination_by structural _ defs => defs

/-- Projects a successful load outcome to the resulting registry. -/
def loadedSet : LoadOutcome → Option EnumSet
  | .ok l => some l.enumSet
  | _ => none

/-- The `FullEnum` record marshalled/unmarshalled by the
`JSONFormatFull` branches of `EnumBase.MarshalJSON`/`UnmarshalJSON`. -/
structure FullEnum where
  name : String
  value : GoValue
  description : String
  aliases : List String
deriving DecidableEq

/-- The `JSONFormatFull` branch of `EnumBase.MarshalJSON`: builds the
`FullEnum` record from the receiver's four fields (before byte
serialization). -/
def marshalFull (e : EnumBase) : FullEnum :=
  { name := e.name, value := e.value, description := e.description,
    aliases := e.aliases }

/-- The JSON wire round trip of a `FullEnum` record: `json.Marshal`
followed by `json.Unmarshal` into a fresh `FullEnum`.  Every Go number
(`int`, `uint64`, `float64`) is serialized as a JSON number and decoded
back into the `interface{}`-typed `Value` field as a `float64` — that
is, rounded to the nearest `float64`, which loses precision on integers
of magnitude beyond `2^53`; a `float64` payload is printed exactly
enough to reparse to the same `float64`, so it survives unchanged.
Strings, booleans and nil survive unchanged; the `aliases` field is
`omitempty` and an absent field decodes to a nil slice, which this
model identifies with the empty list. -/
def jsonWireFull (r : FullEnum) : FullEnum :=
  { r with
    value :=
      match r.value with
      | .vInt n => .vFloat (float64OfInt n)
      | .vUInt64 n => .vFloat (float64OfInt (n : Int))
      | v => v }

/-- The `JSONFormatFull` branch of `EnumBase.UnmarshalJSON`, applied to a
decoded `FullEnum` record: assigns all four fields into the receiver,
converting a `float64` value to `int` via Go's `int(f)`. -/
def unmarshalFull (e : EnumBase) (r : FullEnum) : EnumBase :=
  { e with
    name := r.name,
    value :=
      match r.value with
      | .vFloat f => .vInt (truncQ f)
      | v => v,
    description := r.description,
    aliases := r.aliases }

/-- Full-record encode-then-decode round trip of an `EnumBase`. -/
def roundTripFull (e : EnumBase) : EnumBase :=
  unmarshalFull e (jsonWireFull (marshalFull e))

/-- The `CompositeEnumBase` struct: an embedded `EnumBase` plus the
`uint64` flag mask (a `Nat` kept below `2^64` by every constructor and
operation modelled here). -/
structure CompositeEnumBase where
  enumBase : EnumBase
  flags : Nat
deriving DecidableEq

/-- Go's `^x` on a `uint64`: XOR with the all-ones 64-bit mask. -/
def notU64 (n : Nat) : Nat := n ^^^ (2 ^ 64 - 1)

/-- `NewCompositeEnumBase`: a `uint64` value is the mask verbatim; an
`int` value n is interpreted as a bit position, `1 << uint(n)` on
`uint64` (zero when the shift count, after Go's int-to-uint conversion,
is 64 or more — in particular for every negative n); any other value
type yields the zero mask.  The embedded `EnumBase` stores the mask as
its (uint64) value. -/
def NewCompositeEnumBase (value : GoValue) (name description : String)
    (aliases : List String) : CompositeEnumBase :=
  let flags : Nat :=
    match value with
    | .vUInt64 n => n
    | .vInt i => if 0 ≤ i ∧ i < 64 then 2 ^ i.toNat else 0
    | _ => 0
  { enumBase := NewEnumBase (.vUInt64 flags) name description aliases,
    flags := flags }

/-- A `CompositeEnum` implementation other than the library's
`*CompositeEnumBase` (its payload is irrelevant to the library, which
only type-asserts against `*CompositeEnumBase`). -/
structure OtherComposite where
  tag : Nat
deriving DecidableEq

/-- A `CompositeEnum` interface value passed as an operand: the nil
interface, a (non-nil) `*CompositeEnumBase`, or a foreign
implementation. -/
inductive CompositeEnumVal where
  | nilIface
  | base (b : CompositeEnumBase)
  | other (o : OtherComposite)
deriving DecidableEq

/-- `CompositeEnumBase.Or` on a non-nil receiver: a nil operand or an
operand whose concrete type is not `*CompositeEnumBase` returns the
receiver; otherwise a new composite with the OR of the masks, the glued
name, the receiver's description and no aliases. -/
def CompositeEnumBase.Or (e : CompositeEnumBase) (other : CompositeEnumVal) :
    CompositeEnumBase :=
  match other with
  | .base ob =>
    { enumBase := NewEnumBase (.vUInt64 (e.flags ||| ob.flags))
        (e.enumBase.name ++ "|" ++ ob.enumBase.name)
        e.enumBase.description [],
      flags := e.flags ||| ob.flags }
  | _ => e

/-- `CompositeEnumBase.And`, same shape as `Or` with AND and `&`. -/
def CompositeEnumBase.And (e : CompositeEnumBase) (other : CompositeEnumVal) :
    CompositeEnumBase :=
  match other with
  | .base ob =>
    { enumBase := NewEnumBase (.vUInt64 (e.flags &&& ob.flags))
        (e.enumBase.name ++ "&" ++ ob.enumBase.name)
        e.enumBase.description [],
      flags := e.flags &&& ob.flags }
  | _ => e

/-- `CompositeEnumBase.Xor`, same shape as `Or` with XOR and `^`. -/
def CompositeEnumBase.Xor (e : CompositeEnumBase) (other : CompositeEnumVal) :
    CompositeEnumBase :=
  match other with
  | .base ob =>
    { enumBase := NewEnumBase (.vUInt64 (e.flags ^^^ ob.flags))
        (e.enumBase.name ++ "^" ++ ob.enumBase.name)
        e.enumBase.description [],
      flags := e.flags ^^^ ob.flags }
  | _ => e

/-- `CompositeEnumBase.Not` on a non-nil receiver: a new composite with
the complemented mask and a `~`-prefixed name. -/
def CompositeEnumBase.Not (e : CompositeEnumBase) : CompositeEnumBase :=
  { enumBase := NewEnumBase (.vUInt64 (notU64 e.flags))
      ("~" ++ e.enumBase.name) e.enumBase.description [],
    flags := notU64 e.flags }

/-- `CompositeEnumBase.HasFlag`: false on a nil receiver, a nil flag, or
a flag whose concrete type is not `*CompositeEnumBase`; otherwise the
full subset test `(e.flags & f.flags) == f.flags`. -/
def CompositeEnumBase.HasFlag (e : Option CompositeEnumBase)
    (flag : CompositeEnumVal) : Bool :=
  match e, flag with
  | none, _ => false
  | some _, .nilIface => false
  | some eb, .base fb => (eb.flags &&& fb.flags) == fb.flags
  | some _, .other _ => false

/-- `CompositeEnumBase.Value` (the override): returns the mask as a
`uint64`. -/
def CompositeEnumBase.Value (e : CompositeEnumBase) : GoValue :=
  .vUInt64 e.flags

/-- One Enumerator being reachable through the by-name index. -/
def ReachByName (es : EnumSet) (e : EnumBase) : Prop :=
  ∃ n, assocFind es.values n = some e

/-- One Enumerator being reachable through the by-value index. -/
def ReachByValue (es : EnumSet) (e : EnumBase) : Prop :=
  ∃ v, assocFind es.byValue v = some e

/-- A sequence of registrations from a starting registry: `none` when
some registration panics. -/
def registerSeq : EnumSet → List EnumBase → Option EnumSet
  | es, [] => some es
  | es, e :: rest =>
    match es.Register e with
    | (es1, none) => registerSeq es1 rest
    | (_, some _) => none

/-- Loader options with the `DuplicateSkip` policy. -/
def skipOptions : ValidationOptions :=
  { DefaultValidationOptions with duplicateHandling := .DuplicateSkip }

/-- Loader options with the `DuplicateOverride` policy. -/
def overrideOptions : ValidationOptions :=
  { DefaultValidationOptions with duplicateHandling := .DuplicateOverride }

/-- The two-definition batch `[{name:"X",value:1},{name:"X",value:2}]`. -/
def xDefs : List EnumDefinition :=
  [{ name := "X", value := .vInt 1, description := "", aliases := [] },
   { name := "X", value := .vInt 2, description := "", aliases := [] }]

/-- A concrete enumerator named `A` with value `int(1)`. -/
def enumA : EnumBase := NewEnumBase (.vInt 1) "A" "" []

/-- The registry holding exactly `enumA`. -/
def setA : EnumSet :=
  { values := [("A", enumA)], byValue := [(.vInt 1, enumA)] }

/-- The composite flag `A` with mask `1<<0`. -/
def flagA : CompositeEnumBase := NewCompositeEnumBase (.vUInt64 1) "A" "" []

/-- The composite flag `B` with mask `1<<1`. -/
def flagB : CompositeEnumBase := NewCompositeEnumBase (.vUInt64 2) "B" "" []

/-- The composite flag `C` with mask `1<<2`. -/
def flagC : CompositeEnumBase := NewCompositeEnumBase (.vUInt64 4) "C" "" []

/-- An enumerator carrying the non-integral float value `1.5`. -/
def eFloat : EnumBase :=
  { value := .vFloat (mkRat 3 2), name := "F", description := "d",
    aliases := [] }

/-- An enumerator carrying the integer value `2^53 + 1`, one past the
contiguous `float64` integer range. -/
def eBig : EnumBase :=
  { value := .vInt (2 ^ 53 + 1), name := "G", description := "",
    aliases := [] }

/-- On nonnegative rationals, `truncQ` is the floor. -/
theorem truncQ_eq_floor (q : ℚ) (h : 0 ≤ q) : truncQ q = ⌊q⌋ := by
  rw [Rat.floor_def, truncQ,
    Int.tdiv_eq_ediv (by exact_mod_cast Rat.num_nonneg.mpr h)
      (by positivity)]

/-- On negative rationals, `truncQ` is the ceiling — together with
`truncQ_eq_floor` this verifies that `truncQ` rounds toward zero exactly
as Go's `int(f)` conversion does. -/
theorem truncQ_eq_ceil (q : ℚ) (h : q < 0) : truncQ q = ⌈q⌉ := by
  have hceil : ⌈q⌉ = -⌊-q⌋ := by rw [Int.floor_neg]; ring
  have hnum : (0 : Int) ≤ (-q).num := by
    exact_mod_cast Rat.num_nonneg.mpr (by linarith)
  have hfl : ⌊-q⌋ = Int.tdiv (-q).num ((-q).den : Int) := by
    rw [Rat.floor_def, Int.tdiv_eq_ediv hnum (by positivity)]
  rw [hceil, hfl, Rat.neg_den q, Rat.neg_num q, truncQ, Int.neg_tdiv,
    neg_neg]

/-- `truncQ` is the identity on integers embedded in `ℚ`. -/
theorem truncQ_intCast (n : Int) : truncQ (n : ℚ) = n := by
  simp [truncQ, Rat.num_intCast, Rat.den_intCast, Int.tdiv_one]

/-- Naturals up to `2^53` are exactly representable in a `float64`. -/
theorem roundF64Nat_eq_self (m : Nat) (h : m ≤ 2 ^ 53) :
    roundF64Nat m = m := by
  by_cases hm : m < 2 ^ 53
  · unfold roundF64Nat
    rw [if_pos hm]
  · have he : m = 2 ^ 53 := le_antisymm h (Nat.le_of_not_lt hm)
    subst he
    decide

/-- Integers of magnitude up to `2^53` are exactly representable in a
`float64`. -/
theorem roundF64Int_eq_self (n : Int) (h : n.natAbs ≤ 2 ^ 53) :
    roundF64Int n = n := by
  unfold roundF64Int
  rw [roundF64Nat_eq_self n.natAbs h]
  by_cases hn : n < 0
  · rw [if_pos hn]
    omega
  · rw [if_neg hn]
    omega

/-- A key found in the left part of an appended association list is the
overall lookup result. -/
theorem assocFind_append_some {κ : Type} [DecidableEq κ]
    {xs : List (κ × EnumBase)} (ys : List (κ × EnumBase)) {n : κ}
    {e : EnumBase} (h : assocFind xs n = some e) :
    assocFind (xs ++ ys) n = some e := by
  induction xs with
  | nil => simp [assocFind] at h
  | cons p rest ih =>
    obtain ⟨k, x⟩ := p
    by_cases hk : k = n
    · simp only [assocFind, List.cons_append, if_pos hk] at h ⊢
      exact h
    · simp only [assocFind, List.cons_append, if_neg hk] at h ⊢
      exact ih h

/-- A key absent from the left part of an appended association list is
looked up in the right part. -/
theorem assocFind_append_none {κ : Type} [DecidableEq κ]
    {xs : List (κ × EnumBase)} (ys : List (κ × EnumBase)) {n : κ}
    (h : assocFind xs n = none) :
    assocFind (xs ++ ys) n = assocFind ys n := by
  induction xs with
  | nil => simp [assocFind]
  | cons p rest ih =>
    obtain ⟨k, x⟩ := p
    by_cases hk : k = n
    · simp [assocFind, if_pos hk] at h
    · simp only [assocFind, List.cons_append, if_neg hk] at h ⊢
      exact ih h

/-- Appending one fresh binding extends the reachable enums of an
association list by exactly the appended enum. -/
theorem reach_append {κ : Type} [DecidableEq κ]
    (xs : List (κ × EnumBase)) (k : κ) (e : EnumBase)
    (hk : assocFind xs k = none) (x : EnumBase) :
    (∃ n, assocFind (xs ++ [(k, e)]) n = some x) ↔
      (∃ n, assocFind xs n = some x) ∨ x = e := by
  constructor
  · rintro ⟨n, hn⟩
    cases hfind : assocFind xs n with
    | some y =>
      rw [assocFind_append_some _ hfind] at hn
      exact Or.inl ⟨n, hfind.trans hn⟩
    | none =>
      rw [assocFind_append_none _ hfind] at hn
      by_cases hkn : k = n
      · subst hkn
        simp [assocFind] at hn
        exact Or.inr hn.symm
      · simp [assocFind, hkn] at hn
  · rintro (⟨n, hn⟩ | rfl)
    · exact ⟨n, assocFind_append_some _ hn⟩
    · refine ⟨k, ?_⟩
      rw [assocFind_append_none _ hk]
      simp [assocFind]

/-- A successful `Register` implies both conflict checks were negative
and both indices were extended by the new binding. -/
theorem Register_ok (es : EnumSet) (e : EnumBase) (es1 : EnumSet)
    (h : es.Register e = (es1, none)) :
    assocFind es.values e.String = none ∧
    assocFind es.byValue e.Value = none ∧
    es1 = { values := es.values ++ [(e.String, e)],
            byValue := es.byValue ++ [(e.Value, e)] } := by
  by_cases h1 : (assocFind es.values e.String).isSome
  · simp [EnumSet.Register, h1] at h
  · by_cases h2 : (assocFind es.byValue e.Value).isSome
    · simp [EnumSet.Register, h1, h2] at h
    · simp only [EnumSet.Register, h1, h2, if_false, Bool.false_eq_true,
        if_neg, Prod.mk.injEq] at h
      exact ⟨Option.not_isSome_iff_eq_none.mp h1,
        Option.not_isSome_iff_eq_none.mp h2, h.1.symm⟩

/-- One successful registration preserves the two-index reachability
invariant. -/
theorem register_inv_step (es es1 : EnumSet) (e : EnumBase)
    (h : es.Register e = (es1, none))
    (hinv : ∀ x, ReachByName es x ↔ ReachByValue es x) :
    ∀ x, ReachByName es1 x ↔ ReachByValue es1 x := by
  obtain ⟨h1, h2, rfl⟩ := Register_ok es e es1 h
  intro x
  simp only [ReachByName, ReachByValue] at hinv ⊢
  rw [reach_append es.values e.String e h1 x,
    reach_append es.byValue e.Value e h2 x]
  exact or_congr (hinv x) Iff.rfl

/-- Any sequence of successful registrations preserves the two-index
reachability invariant. -/
theorem registerSeq_inv (l : List EnumBase) :
    ∀ es0 es : EnumSet,
      (∀ x, ReachByName es0 x ↔ ReachByValue es0 x) →
      registerSeq es0 l = some es →
      ∀ x, ReachByName es x ↔ ReachByValue es x := by
  induction l with
  | nil =>
    intro es0 es h0 hs
    simp only [registerSeq, Option.some.injEq] at hs
    subst hs
    exact h0
  | cons e rest ih =>
    intro es0 es h0 hs
    simp only [registerSeq] at hs
    cases hreg : es0.Register e with
    | mk es1 o =>
      rw [hreg] at hs
      cases o with
      | none => exact ih es1 es (register_inv_step es0 es1 e hreg h0) hs
      | some m => simp at hs

/-- C1 (counterexample): registering the enumerator named `"a"` (value
`int(1)`) into a fresh registry succeeds, yet `GetByName "a"` — the
exact name it was constructed with — finds nothing, because the lookup
upper-cases the query to `"A"` while the index stores the raw `"a"`
and the enumerator has no aliases to fall back on. -/
theorem C1_counterexample :
    (NewEnumSet.Register (NewEnumBase (.vInt 1) "a" "" [])).2 = none ∧
    (NewEnumSet.Register (NewEnumBase (.vInt 1) "a" "" [])).1.GetByName "a"
      = none := by decide

/-- C1 (amended): for every valid pair with a non-empty name that is
fixed by upper-casing (in particular every all-upper-case name),
registering the enumerator into a fresh registry succeeds, and both
`GetByName` with that exact name and `GetByValue` with its value return
that same enumerator. -/
theorem C1_register_lookup (v : GoValue) (name description : String)
    (aliases : List String) (hname : name ≠ "")
    (hup : goToUpper name = name) :
    ∃ es : EnumSet,
      NewEnumSet.Register (NewEnumBase v name description aliases)
        = (es, none) ∧
      es.GetByName name = some (NewEnumBase v name description aliases) ∧
      es.GetByValue v = some (NewEnumBase v name description aliases) := by
  refine ⟨{ values := [(name, NewEnumBase v name description aliases)],
            byValue := [(v, NewEnumBase v name description aliases)] },
    ?_, ?_, ?_⟩
  · rfl
  · simp [EnumSet.GetByName, hup, assocFind]
  · simp [EnumSet.GetByValue, assocFind]

/-- C1 (witness): the amended statement at the concrete pair
`("A", int(1))`. -/
theorem C1_register_lookup_witness :
    ∃ es : EnumSet,
      NewEnumSet.Register (NewEnumBase (.vInt 1) "A" "" []) = (es, none) ∧
      es.GetByName "A" = some (NewEnumBase (.vInt 1) "A" "" []) ∧
      es.GetByValue (.vInt 1) = some (NewEnumBase (.vInt 1) "A" "" []) :=
  C1_register_lookup (.vInt 1) "A" "" [] (by decide) (by decide)

/-- C2 (evaluation at the failing input): under the default options,
whose policy is `DuplicateError`, loading the single, non-conflicting
definition `{name:"A", value:1}` into a fresh loader returns the
duplicate-found error even though the registry is empty — the source
calls `handleDuplicate` unconditionally, and under `DuplicateError`
that helper errors without ever consulting the registry. -/
theorem C2_error_policy_eval :
    (NewDynamicEnumLoader DefaultValidationOptions).LoadFromSlice
        [{ name := "A", value := .vInt 1, description := "", aliases := [] }]
      = .retErr (NewDynamicEnumLoader DefaultValidationOptions)
          "duplicate enum found: name=A" := by decide

/-- C3: loading `[{name:"X",value:1},{name:"X",value:2}]` into a fresh
loader succeeds under both policies, and `GetByName "X"` returns the
value-1 enumerator under `DuplicateSkip` (first wins) and the value-2
enumerator under `DuplicateOverride` (last wins). -/
theorem C3_skip_first_override_last :
    (loadedSet ((NewDynamicEnumLoader skipOptions).LoadFromSlice xDefs)).bind
        (fun es => es.GetByName "X")
      = some { value := .vInt 1, name := "X", description := "",
               aliases := [] } ∧
    (loadedSet
        ((NewDynamicEnumLoader overrideOptions).LoadFromSlice xDefs)).bind
        (fun es => es.GetByName "X")
      = some { value := .vInt 2, name := "X", description := "",
               aliases := [] } := by decide

/-- C4 (evaluation at the failing input): under `DuplicateSkip`, loading
`[{name:"A",value:1},{name:"B",value:1}]` — a duplicate value under a
fresh name — terminates abnormally: `Contains` keys off the name only,
so the second definition reaches `Register`, which panics on the
duplicate value instead of being silently discarded. -/
theorem C4_skip_value_conflict_eval :
    (NewDynamicEnumLoader skipOptions).LoadFromSlice
        [{ name := "A", value := .vInt 1, description := "", aliases := [] },
         { name := "B", value := .vInt 1, description := "", aliases := [] }]
      = .crashed "duplicate enum value" := by decide

/-- C5 (counterexample): a structured-text value arriving as the
non-integral float `1.5` is not stored unchanged — the load stores the
truncated integer `1`, and the original float value is not retrievable
by `GetByValue`. -/
theorem C5_counterexample :
    (loadedSet ((NewDynamicEnumLoader skipOptions).LoadFromReader
        [{ name := "B", value := .vFloat (mkRat 3 2), description := "",
           aliases := [] }])).bind (fun es => es.GetByName "B")
      = some { value := .vInt 1, name := "B", description := "",
               aliases := [] } ∧
    (loadedSet ((NewDynamicEnumLoader skipOptions).LoadFromReader
        [{ name := "B", value := .vFloat (mkRat 3 2), description := "",
           aliases := [] }])).bind
        (fun es => es.GetByValue (.vFloat (mkRat 3 2)))
      = none := by decide

/-- C5 (amended): a structured-text load narrows every floating-point
value to integer by truncation toward zero, not only the integral ones:
`1.0` is stored as the integer `1` (so `getByValue(1)` succeeds), and in
general a float `q` is stored as the integer `truncQ q`. -/
theorem C5_float_narrowing (q : ℚ) :
    (loadedSet ((NewDynamicEnumLoader skipOptions).LoadFromReader
        [{ name := "A", value := .vFloat 1, description := "",
           aliases := [] }])).bind (fun es => es.GetByValue (.vInt 1))
      = some { value := .vInt 1, name := "A", description := "",
               aliases := [] } ∧
    (loadedSet ((NewDynamicEnumLoader skipOptions).LoadFromReader
        [{ name := "B", value := .vFloat q, description := "",
           aliases := [] }])).bind (fun es => es.GetByName "B")
      = some { value := .vInt (truncQ q), name := "B", description := "",
               aliases := [] } := by
  constructor
  · decide
  · rfl

/-- C5 (witness): the amended statement at the concrete float `1.5`. -/
theorem C5_float_narrowing_witness :
    (loadedSet ((NewDynamicEnumLoader skipOptions).LoadFromReader
        [{ name := "B", value := .vFloat (mkRat 3 2), description := "",
           aliases := [] }])).bind (fun es => es.GetByName "B")
      = some { value := .vInt (truncQ (mkRat 3 2)), name := "B",
               description := "", aliases := [] } :=
  (C5_float_narrowing (mkRat 3 2)).2

/-- C6 (counterexample): the full-record round trip is not the identity
on an enumerator holding the float value `1.5` (decoded as the integer
`1`), nor on one holding the integer `2^53 + 1`, which is beyond
`float64` precision and decodes as `2^53`. -/
theorem C6_counterexample :
    (roundTripFull eFloat ≠ eFloat ∧
      roundTripFull eFloat
        = { value := .vInt 1, name := "F", description := "d",
            aliases := [] }) ∧
    (roundTripFull eBig ≠ eBig ∧
      roundTripFull eBig
        = { value := .vInt (2 ^ 53), name := "G", description := "",
            aliases := [] }) := by decide

/-- C6 (amended): the full-record round trip always reproduces `name`,
`description` and `aliases`; it reproduces the whole enumerator when
the value is a string, a boolean or nil, and when the value is an
integer of magnitude at most `2^53`; in general an integer value comes
back as its `float64` rounding (so `2^53 + 1` comes back as `2^53`),
and a floating-point value `q` comes back as the integer truncation
`truncQ q`. -/
theorem C6_roundtrip :
    (∀ e : EnumBase, (roundTripFull e).name = e.name ∧
        (roundTripFull e).description = e.description ∧
        (roundTripFull e).aliases = e.aliases) ∧
    (∀ e : EnumBase,
        (∀ q : ℚ, e.value ≠ .vFloat q) →
        (∀ n : Nat, e.value ≠ .vUInt64 n) →
        (∀ n : Int, e.value ≠ .vInt n) →
        roundTripFull e = e) ∧
    (∀ (e : EnumBase) (n : Int), e.value = .vInt n →
        n.natAbs ≤ 2 ^ 53 → roundTripFull e = e) ∧
    (∀ (e : EnumBase) (n : Int), e.value = .vInt n →
        (roundTripFull e).value = .vInt (roundF64Int n)) ∧
    (∀ (e : EnumBase) (q : ℚ), e.value = .vFloat q →
        (roundTripFull e).value = .vInt (truncQ q)) := by
  refine ⟨fun e => ⟨rfl, rfl, rfl⟩, ?_, ?_, ?_, ?_⟩
  · rintro ⟨v, nm, ds, al⟩ h1 h2 h3
    cases v with
    | vNull => rfl
    | vBool b => rfl
    | vInt m => exact absurd rfl (h3 m)
    | vUInt64 n => exact absurd rfl (h2 n)
    | vFloat q => exact absurd rfl (h1 q)
    | vString s => rfl
  · rintro ⟨v, nm, ds, al⟩ n hv h
    cases hv
    simp [roundTripFull, unmarshalFull, jsonWireFull, marshalFull,
      float64OfInt, truncQ_intCast, roundF64Int_eq_self n h]
  · rintro ⟨v, nm, ds, al⟩ n hv
    cases hv
    simp [roundTripFull, unmarshalFull, jsonWireFull, marshalFull,
      float64OfInt, truncQ_intCast]
  · rintro ⟨v, nm, ds, al⟩ q hq
    cases hq
    rfl

/-- C6 (witness): the amended statement at a small integer-valued
enumerator (identity), at the big-integer `eBig` (float64 rounding),
and at the float-valued `eFloat` (truncation). -/
theorem C6_roundtrip_witness :
    roundTripFull { value := .vInt 5, name := "N", description := "d",
                    aliases := ["x"] }
      = { value := .vInt 5, name := "N", description := "d",
          aliases := ["x"] } ∧
    (roundTripFull eBig).value = .vInt (roundF64Int (2 ^ 53 + 1)) ∧
    (roundTripFull eFloat).value = .vInt (truncQ (mkRat 3 2)) :=
  ⟨C6_roundtrip.2.2.1 _ 5 rfl (by decide),
   C6_roundtrip.2.2.2.1 eBig (2 ^ 53 + 1) rfl,
   C6_roundtrip.2.2.2.2 eFloat (mkRat 3 2) rfl⟩

/-- C7: for the composite flags `A = 1<<0` and `B = 1<<1`:
`A.Or(B).Value = 3`, `A.Or(B).And(A).Value = 1`,
`A.Or(B).Xor(A).Value = 2`, and `A.Not.Value` is the 64-bit complement
of 1, namely `2^64 - 2`; the operations build new composites (distinct
from both operands) and the operands' masks stay `1` and `2`. -/
theorem C7_composite_algebra :
    (flagA.Or (.base flagB)).Value = .vUInt64 3 ∧
    ((flagA.Or (.base flagB)).And (.base flagA)).Value = .vUInt64 1 ∧
    ((flagA.Or (.base flagB)).Xor (.base flagA)).Value = .vUInt64 2 ∧
    flagA.Not.Value = .vUInt64 (2 ^ 64 - 2) ∧
    flagA.flags = 1 ∧ flagB.flags = 2 ∧
    flagA.Or (.base flagB) ≠ flagA ∧
    flagA.Or (.base flagB) ≠ flagB := by decide

/-- C8: `HasFlag` is the full subset test — on non-nil composites it
holds iff the mask equation `(x.flags &&& f.flags) = f.flags` holds, iff
every bit of `f` is a bit of `x`; consequently `A.Or(B)` has flags `A`
and `B` but not the independent `C = 1<<2`; and it is false whenever the
receiver is nil or the flag argument is nil. -/
theorem C8_hasflag_subset :
    (∀ x f : CompositeEnumBase,
        (CompositeEnumBase.HasFlag (some x) (.base f) = true ↔
          (x.flags &&& f.flags) = f.flags) ∧
        (CompositeEnumBase.HasFlag (some x) (.base f) = true ↔
          ∀ i, f.flags.testBit i = true → x.flags.testBit i = true)) ∧
    CompositeEnumBase.HasFlag (some (flagA.Or (.base flagB)))
        (.base flagA) = true ∧
    CompositeEnumBase.HasFlag (some (flagA.Or (.base flagB)))
        (.base flagB) = true ∧
    CompositeEnumBase.HasFlag (some (flagA.Or (.base flagB)))
        (.base flagC) = false ∧
    (∀ f, CompositeEnumBase.HasFlag none f = false) ∧
    (∀ x : CompositeEnumBase,
        CompositeEnumBase.HasFlag (some x) .nilIface = false) := by
  refine ⟨fun x f => ⟨?_, ?_⟩, by decide, by decide, by decide,
    fun f => rfl, fun x => rfl⟩
  · simp [CompositeEnumBase.HasFlag]
  · simp only [CompositeEnumBase.HasFlag, beq_iff_eq]
    constructor
    · intro hland i hfi
      have ht : (x.flags &&& f.flags).testBit i = (f.flags).testBit i := by
        rw [hland]
      rw [Nat.testBit_land, hfi, Bool.and_true] at ht
      exact ht
    · intro h
      apply Nat.eq_of_testBit_eq
      intro i
      rw [Nat.testBit_land]
      cases hfi : f.flags.testBit i with
      | false => simp
      | true => simp [h i hfi]

/-- C8 (witness): the subset characterization applied at the concrete
flag `A` against itself. -/
theorem C8_hasflag_subset_witness :
    CompositeEnumBase.HasFlag (some flagA) (.base flagA) = true :=
  ((C8_hasflag_subset.1 flagA flagA).2).mpr (fun _ hi => hi)

/-- C9: in every registry reachable from the empty one by a sequence of
successful registrations, an enumerator is reachable through the by-name
index iff it is reachable through the by-value index; and a registration
that signals a name or value conflict panics before touching either
index, leaving the registry unchanged. -/
theorem C9_registry_invariant :
    (∀ (l : List EnumBase) (es : EnumSet),
        registerSeq NewEnumSet l = some es →
        ∀ e, ReachByName es e ↔ ReachByValue es e) ∧
    (∀ (es : EnumSet) (e : EnumBase),
        (es.Register e).2.isSome → (es.Register e).1 = es) := by
  constructor
  · intro l es hs e
    refine registerSeq_inv l NewEnumSet es ?_ hs e
    intro x
    simp [ReachByName, ReachByValue, NewEnumSet, assocFind]
  · intro es e h
    by_cases h1 : (assocFind es.values e.String).isSome
    · simp [EnumSet.Register, h1]
    · by_cases h2 : (assocFind es.byValue e.Value).isSome
      · simp [EnumSet.Register, h1, h2]
      · simp [EnumSet.Register, h1, h2] at h

/-- C9 (witness): the invariant at the one-registration registry `setA`,
and the unchanged-registry fact at the conflicting re-registration of
`enumA` into `setA`. -/
theorem C9_registry_invariant_witness :
    (ReachByName setA enumA ↔ ReachByValue setA enumA) ∧
    (setA.Register enumA).1 = setA :=
  ⟨C9_registry_invariant.1 [enumA] setA (by decide) enumA,
   C9_registry_invariant.2 setA enumA (by decide)⟩

/-- C10: on a non-nil composite, each of `Or`, `And`, `Xor` applied to
an operand whose concrete type is not the library's
`*CompositeEnumBase` returns the receiver itself, unchanged and without
error, and `HasFlag` on such an operand returns false. -/
theorem C10_foreign_operand (x : CompositeEnumBase) (o : OtherComposite) :
    x.Or (.other o) = x ∧ x.And (.other o) = x ∧ x.Xor (.other o) = x ∧
    CompositeEnumBase.HasFlag (some x) (.other o) = false :=
  ⟨rfl, rfl, rfl, rfl⟩

/-- C10 (witness): the statement at the concrete composite `flagA` and a
concrete foreign operand. -/
theorem C10_foreign_operand_witness :
    flagA.Or (.other { tag := 0 }) = flagA ∧
    flagA.And (.other { tag := 0 }) = flagA ∧
    flagA.Xor (.other { tag := 0 }) = flagA ∧
    CompositeEnumBase.HasFlag (some flagA) (.other { tag := 0 }) = false :=
  C10_foreign_operand flagA { tag := 0 }

end GoEnum
